import Mathlib

/-
Shallow embedding of model/features.py (bitpredict feature generation).

Conventions used throughout:
- A pandas DataFrame (or Series) is modelled as a Lean List of rows in table
  order; positional access (iloc, slicing) is List.take / List.drop / List.get.
- Machine floats are modelled as exact rationals, so algebraic identities of
  the source code hold exactly.
- A Python None / pandas NaN cell is an Option that is none; pandas .sum()
  skips NaN and sums of empty selections are 0, which the embedding reflects
  where it matters (noted at each definition).
- numpy searchsorted on an ascending-sorted sequence returns the left (resp.
  right) insertion point, which equals the number of elements strictly
  smaller (resp. smaller or equal) than the probe; the embedding uses those
  counts directly.
-/

/-- One executed-trade record, a row of the trades table built by
get_trade_df: the table is indexed by the unique key column id (the mongo
field of that table), is sorted ascending by id, and carries the columns
timestamp, price, amount and type. -/
structure Trade where
  id : ℚ
  timestamp : ℚ
  price : ℚ
  amount : ℚ
  type : String
deriving DecidableEq

/-- Python int() applied to a real value truncates toward zero. -/
def pyInt (q : ℚ) : ℤ := if 0 ≤ q then ⌊q⌋ else ⌈q⌉

/-- The trades table is sorted ascending by the timestamp column (the trade
source contract stated by the spec and assumed by searchsorted). -/
abbrev SortedByTs (l : List Trade) : Prop :=
  l.Pairwise (fun a b => a.timestamp ≤ b.timestamp)

/-- get_trades_in_range(trades, ts, offset):
  ts = int(ts)
  i_0 = trades.timestamp.searchsorted([ts-offset], side of left)[0]
  i_n = trades.timestamp.searchsorted([ts-1], side of right)[0]
  return trades.iloc[i_0:i_n]
The left insertion point of v in an ascending column is the count of entries
strictly below v, the right insertion point is the count of entries at most v,
and iloc[i_0:i_n] is drop i_0 of take i_n. -/
def get_trades_in_range (trades : List Trade) (ts offset : ℚ) : List Trade :=
  let t : ℚ := (pyInt ts : ℚ)
  let i_0 := trades.countP (fun r => r.timestamp < t - offset)
  let i_n := trades.countP (fun r => r.timestamp ≤ t - 1)
  (trades.take i_n).drop i_0

lemma take_countP_eq_filter (l : List Trade) (b : ℚ)
    (hs : l.Pairwise (fun x y => x.timestamp ≤ y.timestamp)) :
    l.take (l.countP (fun r => r.timestamp ≤ b)) =
      l.filter (fun r => r.timestamp ≤ b) := by
  induction l with
  | nil => simp
  | cons x xs ih =>
    rw [List.pairwise_cons] at hs
    by_cases hx : x.timestamp ≤ b
    · have hc : (x :: xs).countP (fun r => decide (r.timestamp ≤ b)) =
          xs.countP (fun r => decide (r.timestamp ≤ b)) + 1 := by
        simp [List.countP_cons, hx]
      rw [hc, List.take_succ_cons, ih hs.2]
      simp [List.filter_cons, hx]
    · have h0 : xs.countP (fun r => decide (r.timestamp ≤ b)) = 0 := by
        apply List.countP_eq_zero.mpr
        intro y hy
        have := hs.1 y hy
        simp only [decide_eq_true_eq]
        intro hyb
        exact hx (le_trans this hyb)
      have hfil : xs.filter (fun r => decide (r.timestamp ≤ b)) = [] := by
        apply List.filter_eq_nil_iff.mpr
        intro y hy
        have := hs.1 y hy
        simp only [decide_eq_true_eq]
        intro hyb
        exact hx (le_trans this hyb)
      simp [List.countP_cons, hx, h0, List.filter_cons, hfil]

lemma drop_countP_eq_filter (l : List Trade) (a : ℚ)
    (hs : l.Pairwise (fun x y => x.timestamp ≤ y.timestamp)) :
    l.drop (l.countP (fun r => r.timestamp < a)) =
      l.filter (fun r => a ≤ r.timestamp) := by
  induction l with
  | nil => simp
  | cons x xs ih =>
    rw [List.pairwise_cons] at hs
    by_cases hx : x.timestamp < a
    · have hnot : ¬ (a ≤ x.timestamp) := not_le.mpr hx
      have hc : (x :: xs).countP (fun r => decide (r.timestamp < a)) =
          xs.countP (fun r => decide (r.timestamp < a)) + 1 := by
        simp [List.countP_cons, hx]
      rw [hc, List.drop_succ_cons, ih hs.2]
      simp [List.filter_cons, hnot]
    · have h0 : (x :: xs).countP (fun r => decide (r.timestamp < a)) = 0 := by
        apply List.countP_eq_zero.mpr
        intro y hy
        simp only [decide_eq_true_eq]
        rcases List.mem_cons.mp hy with h | h
        · subst h; exact hx
        · have := hs.1 y h
          intro hya
          exact hx (lt_of_le_of_lt this hya)
      have hfil : (x :: xs).filter (fun r => decide (a ≤ r.timestamp)) = x :: xs := by
        apply List.filter_eq_self.mpr
        intro y hy
        simp only [decide_eq_true_eq]
        rcases List.mem_cons.mp hy with h | h
        · subst h; exact not_lt.mp hx
        · exact le_trans (not_lt.mp hx) (hs.1 y h)
      rw [h0, hfil]
      rfl

lemma slice_eq_filter (l : List Trade) (a b : ℚ)
    (hs : l.Pairwise (fun x y => x.timestamp ≤ y.timestamp)) :
    (l.take (l.countP (fun r => r.timestamp ≤ b))).drop
        (l.countP (fun r => r.timestamp < a)) =
      l.filter (fun r => a ≤ r.timestamp ∧ r.timestamp ≤ b) := by
  by_cases hab : a ≤ b
  · have hcnt : l.countP (fun r => r.timestamp < a) =
        (l.filter (fun r => r.timestamp ≤ b)).countP (fun r => r.timestamp < a) := by
      rw [List.countP_filter]
      apply List.countP_congr
      intro r _
      by_cases h : r.timestamp < a
      · have hb : r.timestamp ≤ b := le_trans (le_of_lt h) hab
        simp [h, hb]
      · simp [h]
    rw [take_countP_eq_filter l b hs, hcnt,
      drop_countP_eq_filter _ a (List.Pairwise.filter _ hs)]
    rw [List.filter_filter]
    apply List.filter_congr
    intro r _
    by_cases h1 : a ≤ r.timestamp <;> by_cases h2 : r.timestamp ≤ b <;>
      simp [h1, h2]
  · push_neg at hab
    have hmono : l.countP (fun r => r.timestamp ≤ b) ≤
        l.countP (fun r => r.timestamp < a) := by
      apply List.countP_mono_left
      intro r _
      simp only [decide_eq_true_eq]
      intro h
      exact lt_of_le_of_lt h hab
    have hlen : (l.take (l.countP (fun r => r.timestamp ≤ b))).length ≤
        l.countP (fun r => r.timestamp < a) :=
      le_trans (List.length_take_le _ _) hmono
    rw [List.drop_eq_nil_of_le hlen]
    symm
    apply List.filter_eq_nil_iff.mpr
    intro r _
    simp only [decide_eq_true_eq, not_and]
    intro h1 h2
    exact absurd (lt_of_le_of_lt h1 (lt_of_le_of_lt h2 hab)) (lt_irrefl _)

lemma pyInt_intCast (z : ℤ) : pyInt (z : ℚ) = z := by
  unfold pyInt
  split <;> simp

/-- Claim C4: for every trade table sorted ascending by timestamp, every
integer target timestamp ts and every offset, get_trades_in_range returns
exactly the trades whose timestamp lies in the closed interval
[ts - offset, ts - 1], a trailing window of length offset excluding ts. -/
theorem C4_trades_in_range_window (trades : List Trade) (ts : ℤ) (offset : ℚ)
    (hs : SortedByTs trades) :
    get_trades_in_range trades (ts : ℚ) offset =
      trades.filter
        (fun r => (ts : ℚ) - offset ≤ r.timestamp ∧ r.timestamp ≤ (ts : ℚ) - 1) := by
  unfold get_trades_in_range
  rw [pyInt_intCast]
  exact slice_eq_filter trades ((ts : ℚ) - offset) ((ts : ℚ) - 1) hs

def T4 : List Trade :=
  [⟨1, 3, 10, 1, "buy"⟩, ⟨2, 5, 11, 2, "sell"⟩, ⟨3, 9, 12, 1, "buy"⟩]

/-- Witness for C4: a concrete sorted trade table at ts = 6, offset = 3. -/
theorem C4_witness :
    get_trades_in_range T4 ((6 : ℤ) : ℚ) 3 =
      T4.filter
        (fun r => ((6 : ℤ) : ℚ) - 3 ≤ r.timestamp ∧ r.timestamp ≤ ((6 : ℤ) : ℚ) - 1) :=
  C4_trades_in_range_window T4 6 3 (by norm_num [T4])

/-- Claim C10: for every non-integer target timestamp ts, get_trades_in_range
first truncates ts with int(ts), so the selected trailing window is
[int(ts) - offset, int(ts) - 1] rather than one anchored at the fractional
timestamp. -/
theorem C10_truncated_anchor (trades : List Trade) (ts offset : ℚ)
    (hs : SortedByTs trades) (hfrac : ts.den ≠ 1) :
    get_trades_in_range trades ts offset =
      trades.filter
        (fun r => (pyInt ts : ℚ) - offset ≤ r.timestamp ∧
          r.timestamp ≤ (pyInt ts : ℚ) - 1) := by
  unfold get_trades_in_range
  exact slice_eq_filter trades ((pyInt ts : ℚ) - offset) ((pyInt ts : ℚ) - 1) hs

/-- Witness for C10: ts = 13/2 truncates to 6, giving the window [3, 5]. -/
theorem C10_witness :
    get_trades_in_range T4 (13 / 2) 3 =
      T4.filter
        (fun r => (pyInt (13 / 2) : ℚ) - 3 ≤ r.timestamp ∧
          r.timestamp ≤ (pyInt (13 / 2) : ℚ) - 1) :=
  C10_truncated_anchor T4 (13 / 2) 3 (by norm_num [T4]) (by norm_num)

/-- Inner mean_trades(ts) of get_trades_average(books, trades, offset):
  trades_n = get_trades_in_range(trades, ts, offset)
  if not trades_n.empty:
    return (trades_n.price*trades_n.amount).sum()/trades_n.amount.sum()
and the implicit fall-through returns None (a missing value). -/
def mean_trades (trades : List Trade) (offset : ℚ) (ts : ℚ) : Option ℚ :=
  let trades_n := get_trades_in_range trades ts offset
  if trades_n.isEmpty then none
  else some ((trades_n.map (fun r => r.price * r.amount)).sum /
    (trades_n.map Trade.amount).sum)

/-- get_trades_average(books, trades, offset) = books.index.map(mean_trades);
books is represented by its timestamp index, the only part it reads. -/
def get_trades_average (books : List ℚ) (trades : List Trade) (offset : ℚ) :
    List (Option ℚ) :=
  books.map (mean_trades trades offset)

/-- Inner aggressor(ts) of get_aggressor(books, trades, offset):
  buys = trades_n[type] == buy
  buy_vol = trades_n[buys].amount.sum(); sell_vol = trades_n[~buys].amount.sum()
  return buy_vol - sell_vol
The complement mask ~buys selects every row whose type is not the string buy.
Pandas sum of an empty selection is 0. -/
def aggressor (trades : List Trade) (offset : ℚ) (ts : ℚ) : ℚ :=
  let trades_n := get_trades_in_range trades ts offset
  let buy_vol := ((trades_n.filter (fun r => r.type = "buy")).map Trade.amount).sum
  let sell_vol := ((trades_n.filter (fun r => ¬ r.type = "buy")).map Trade.amount).sum
  buy_vol - sell_vol

/-- get_aggressor(books, trades, offset) = books.index.map(aggressor). -/
def get_aggressor (books : List ℚ) (trades : List Trade) (offset : ℚ) : List ℚ :=
  books.map (aggressor trades offset)

/-- scipy.stats.linregress(x, y)[0]: the least-squares slope, computed there
as ssxym / ssxm where ssxm and ssxym are the bias-normalised second moments
mean((x - mean x)^2) and mean((x - mean x)*(y - mean y)). -/
def linregressSlope (pts : List (ℚ × ℚ)) : ℚ :=
  let n : ℚ := pts.length
  let xm := (pts.map Prod.fst).sum / n
  let ym := (pts.map Prod.snd).sum / n
  let ssxm := (pts.map (fun p => (p.1 - xm) ^ 2)).sum / n
  let ssxym := (pts.map (fun p => (p.1 - xm) * (p.2 - ym))).sum / n
  ssxym / ssxm

/-- Inner trend(ts) of get_trend(books, trades, offset):
  trades_n = get_trades_in_range(trades, ts, offset)
  if len(trades_n) < 3: return 0
  else: return linregress(trades_n.index.values, trades_n.price.values)[0]
The regressor is trades_n.index.values, the id key of the trades table (the
column get_trade_df sets as the index), not the timestamp column. -/
def trend (trades : List Trade) (offset : ℚ) (ts : ℚ) : ℚ :=
  let trades_n := get_trades_in_range trades ts offset
  if trades_n.length < 3 then 0
  else linregressSlope (trades_n.map (fun r => (r.id, r.price)))

/-- get_trend(books, trades, offset) = books.index.map(trend). -/
def get_trend (books : List ℚ) (trades : List Trade) (offset : ℚ) : List ℚ :=
  books.map (trend trades offset)

/-- Claim C5: for every book-row timestamp whose trailing trade window is
empty, the volume-weighted trade average is a missing value, the aggressor
imbalance is 0 and the trend is 0. -/
theorem C5_empty_window (books : List ℚ) (trades : List Trade) (offset : ℚ)
    (k : ℕ) (t : ℚ) (hk : books[k]? = some t)
    (hw : get_trades_in_range trades t offset = []) :
    (get_trades_average books trades offset)[k]? = some none ∧
    (get_aggressor books trades offset)[k]? = some 0 ∧
    (get_trend books trades offset)[k]? = some 0 := by
  refine ⟨?_, ?_, ?_⟩ <;>
    simp [get_trades_average, get_aggressor, get_trend, List.getElem?_map, hk,
      mean_trades, aggressor, trend, hw]

/-- Witness for C5: one book row at t = 5 against an empty trade table. -/
theorem C5_witness :
    (get_trades_average [(5 : ℚ)] [] 1)[0]? = some none ∧
    (get_aggressor [(5 : ℚ)] [] 1)[0]? = some 0 ∧
    (get_trend [(5 : ℚ)] [] 1)[0]? = some 0 :=
  C5_empty_window [(5 : ℚ)] [] 1 0 5 rfl rfl

lemma sum_amount_nonbuy_split (l : List Trade) :
    ((l.filter (fun r => ¬ r.type = "buy")).map Trade.amount).sum =
      ((l.filter (fun r => r.type = "sell")).map Trade.amount).sum +
        ((l.filter (fun r => ¬ r.type = "buy" ∧ ¬ r.type = "sell")).map Trade.amount).sum := by
  induction l with
  | nil => simp
  | cons x xs ih =>
    simp only [decide_not, Bool.decide_and] at ih ⊢
    by_cases h1 : x.type = "buy"
    · have h2 : ¬ x.type = "sell" := by simp [h1]
      simp [List.filter_cons, h1, h2, ih]
    · by_cases h2 : x.type = "sell"
      · simp [List.filter_cons, h1, h2, ih]
        ring
      · simp [List.filter_cons, h1, h2, ih]
        ring

/-- Claim C9: get_aggressor treats every trade whose type is not exactly the
string buy as a sell; the imbalance it reports is buy volume minus the total
volume of all non-buy trades, i.e. sell volume plus the volume of trades
whose type is neither buy nor sell also counts negatively. -/
theorem C9_nonbuy_counts_as_sell (books : List ℚ) (trades : List Trade)
    (offset : ℚ) (k : ℕ) (t : ℚ) (hk : books[k]? = some t) :
    (get_aggressor books trades offset)[k]? = some
      ((((get_trades_in_range trades t offset).filter
          (fun r => r.type = "buy")).map Trade.amount).sum -
        ((((get_trades_in_range trades t offset).filter
            (fun r => r.type = "sell")).map Trade.amount).sum +
          (((get_trades_in_range trades t offset).filter
            (fun r => ¬ r.type = "buy" ∧ ¬ r.type = "sell")).map Trade.amount).sum)) := by
  simp only [get_aggressor, List.getElem?_map, hk, Option.map_some']
  rw [aggressor, sum_amount_nonbuy_split]

def T9 : List Trade :=
  [⟨1, 3, 10, 1, "buy"⟩, ⟨2, 4, 11, 2, "sell"⟩, ⟨3, 5, 12, 4, "unknown"⟩]

/-- Witness for C9: a window holding a buy, a sell and a trade with an
unexpected type string; the latter is debited like a sell. -/
theorem C9_witness :
    (get_aggressor [(6 : ℚ)] T9 5)[0]? = some
      ((((get_trades_in_range T9 6 5).filter
          (fun r => r.type = "buy")).map Trade.amount).sum -
        ((((get_trades_in_range T9 6 5).filter
            (fun r => r.type = "sell")).map Trade.amount).sum +
          (((get_trades_in_range T9 6 5).filter
            (fun r => ¬ r.type = "buy" ∧ ¬ r.type = "sell")).map Trade.amount).sum)) :=
  C9_nonbuy_counts_as_sell [(6 : ℚ)] T9 5 0 6 rfl

lemma sum_snd_of_collinear (pts : List (ℚ × ℚ)) (m c : ℚ)
    (h : ∀ p ∈ pts, p.2 = m * p.1 + c) :
    (pts.map Prod.snd).sum = m * (pts.map Prod.fst).sum + c * pts.length := by
  induction pts with
  | nil => simp
  | cons p ps ih =>
    have hp := h p (List.mem_cons_self p ps)
    have ih' := ih (fun q hq => h q (List.mem_cons_of_mem p hq))
    simp only [List.map_cons, List.sum_cons, List.length_cons]
    rw [hp, ih']
    push_cast
    ring

/-- On input points with all (x, y) on the line y = m*x + c and at least two
distinct x values, the scipy least-squares slope is exactly m. -/
lemma linregressSlope_collinear (pts : List (ℚ × ℚ)) (m c : ℚ)
    (hcol : ∀ p ∈ pts, p.2 = m * p.1 + c)
    (hx : ∃ p ∈ pts, ∃ q ∈ pts, p.1 ≠ q.1) :
    linregressSlope pts = m := by
  obtain ⟨p, hp, q, hq, hpq⟩ := hx
  have hne : pts ≠ [] := by
    intro h
    rw [h] at hp
    exact List.not_mem_nil p hp
  have hn0 : (0 : ℚ) < (pts.length : ℚ) := by
    exact_mod_cast List.length_pos.mpr hne
  simp only [linregressSlope]
  set n : ℚ := (pts.length : ℚ) with hn
  set xm : ℚ := (pts.map Prod.fst).sum / n with hxm
  set ym : ℚ := (pts.map Prod.snd).sum / n with hym
  have hymx : ym = m * xm + c := by
    rw [hym, hxm, sum_snd_of_collinear pts m c hcol]
    rw [← hn]
    field_simp
  have hpw : ∀ r ∈ pts, (r.1 - xm) * (r.2 - ym) = m * (r.1 - xm) ^ 2 := by
    intro r hr
    rw [hcol r hr, hymx]
    ring
  have hnum : (pts.map (fun r => (r.1 - xm) * (r.2 - ym))).sum =
      m * (pts.map (fun r => (r.1 - xm) ^ 2)).sum := by
    rw [List.map_congr_left hpw, List.sum_map_mul_left]
  have hS : 0 < (pts.map (fun r => (r.1 - xm) ^ 2)).sum := by
    have hone : p.1 ≠ xm ∨ q.1 ≠ xm := by
      by_contra hcon
      push_neg at hcon
      exact hpq (hcon.1.trans hcon.2.symm)
    have hnn : ∀ y ∈ pts.map (fun r => (r.1 - xm) ^ 2), (0 : ℚ) ≤ y := by
      intro y hy
      obtain ⟨r, hr, rfl⟩ := List.mem_map.mp hy
      positivity
    have key : ∀ r, r ∈ pts → r.1 ≠ xm →
        0 < (pts.map (fun r => (r.1 - xm) ^ 2)).sum := by
      intro r hr hrx
      have hz : r.1 - xm ≠ 0 := sub_ne_zero.mpr hrx
      have hpos : 0 < (r.1 - xm) ^ 2 :=
        lt_of_le_of_ne (sq_nonneg _) (Ne.symm (pow_ne_zero 2 hz))
      exact lt_of_lt_of_le hpos
        (List.single_le_sum hnn _ (List.mem_map_of_mem _ hr))
    rcases hone with h | h
    · exact key p hp h
    · exact key q hq h
  rw [hnum]
  have hS0 : (pts.map (fun r => (r.1 - xm) ^ 2)).sum ≠ 0 := ne_of_gt hS
  have hn0' : n ≠ 0 := ne_of_gt hn0
  field_simp

/-- Amended claim C1: get_trend returns exactly 0 when the trailing window
holds fewer than 3 trades; with at least 3 trades it returns the
least-squares slope of price against the trade id index, so when the
(id, price) points are collinear with slope m (and the window has two
distinct ids) it returns exactly m. -/
theorem C1_trend_fits_id_axis (trades : List Trade) (offset ts : ℚ) (m c : ℚ)
    (hcol : ∀ r ∈ get_trades_in_range trades ts offset, r.price = m * r.id + c)
    (hids : ∃ r ∈ get_trades_in_range trades ts offset,
      ∃ s ∈ get_trades_in_range trades ts offset, r.id ≠ s.id) :
    ((get_trades_in_range trades ts offset).length < 3 →
      trend trades offset ts = 0) ∧
    (3 ≤ (get_trades_in_range trades ts offset).length →
      trend trades offset ts = m) := by
  constructor
  · intro h
    simp [trend, h]
  · intro h3
    have hnot : ¬ (get_trades_in_range trades ts offset).length < 3 :=
      not_lt.mpr h3
    simp only [trend, if_neg hnot]
    apply linregressSlope_collinear _ m c
    · intro p hp
      obtain ⟨r, hr, rfl⟩ := List.mem_map.mp hp
      simpa using hcol r hr
    · obtain ⟨r, hr, s, hs, hrs⟩ := hids
      exact ⟨(r.id, r.price), List.mem_map_of_mem _ hr,
        (s.id, s.price), List.mem_map_of_mem _ hs, by simpa using hrs⟩

def T1 : List Trade :=
  [⟨1, 10, 100, 1, "buy"⟩, ⟨2, 20, 101, 1, "buy"⟩, ⟨3, 40, 103, 1, "buy"⟩]

/-- Counterexample for C1: a sorted window of 3 trades whose (timestamp,
price) points are exactly collinear with slope 1/10, yet get_trend does not
return 1/10: it regresses price on the id index and returns 3/2. -/
theorem C1_counterexample :
    SortedByTs T1 ∧
    3 ≤ (get_trades_in_range T1 50 100).length ∧
    (∀ r ∈ get_trades_in_range T1 50 100,
      r.price = (1 / 10) * r.timestamp + 99) ∧
    trend T1 100 50 ≠ 1 / 10 ∧
    trend T1 100 50 = 3 / 2 := by
  have hwin : get_trades_in_range T1 50 100 = T1 := by
    unfold get_trades_in_range
    norm_num [pyInt, T1, List.countP_cons]
  have htrend : trend T1 100 50 = 3 / 2 := by
    simp only [trend, hwin]
    norm_num [linregressSlope, T1]
  refine ⟨by norm_num [T1], by rw [hwin]; norm_num [T1], ?_, ?_, htrend⟩
  · rw [hwin]
    intro r hr
    fin_cases hr <;> norm_num [T1]
  · rw [htrend]
    norm_num

def T2 : List Trade :=
  [⟨1, 10, 100, 1, "buy"⟩, ⟨2, 20, 101, 1, "sell"⟩, ⟨3, 40, 102, 1, "x"⟩]

/-- Witness for the amended C1: a window of 3 trades whose (id, price)
points lie on the line price = id + 99; the trend is exactly 1. -/
theorem C1_witness :
    3 ≤ (get_trades_in_range T2 50 100).length ∧ trend T2 100 50 = 1 := by
  have hwin : get_trades_in_range T2 50 100 = T2 := by
    unfold get_trades_in_range
    norm_num [pyInt, T2, List.countP_cons]
  refine ⟨by rw [hwin]; norm_num [T2], ?_⟩
  refine (C1_trend_fits_id_axis T2 100 50 1 99 ?_ ?_).2
    (by rw [hwin]; norm_num [T2])
  · rw [hwin]
    intro r hr
    fin_cases hr <;> norm_num [T2]
  · rw [hwin]
    exact ⟨⟨1, 10, 100, 1, "buy"⟩, by simp [T2],
      ⟨2, 20, 101, 1, "sell"⟩, by simp [T2], by norm_num⟩

/-- books.index.get_loc(target, method of nearest) on a monotonic increasing
index: pandas compares the pad (left) and backfill (right) candidates and
keeps the left one only when its distance is strictly smaller, so a tie goes
to the later entry. On a sorted list that choice is the greatest argmin
position, which this recursion computes. -/
def nearestIdx : List ℚ → ℚ → ℕ
  | [], _ => 0
  | [_], _ => 0
  | a :: b :: rest, x =>
    if |a - x| < |(b :: rest).getD (nearestIdx (b :: rest) x) 0 - x| then 0
    else nearestIdx (b :: rest) x + 1

lemma nearestIdx_lt_length (l : List ℚ) (x : ℚ) (h : l ≠ []) :
    nearestIdx l x < l.length := by
  induction l with
  | nil => exact absurd rfl h
  | cons a tl ih =>
    cases tl with
    | nil => simp [nearestIdx]
    | cons b rest =>
      have ih' := ih (by simp)
      rw [nearestIdx]
      split
      · simp
      · simpa [Nat.succ_lt_succ_iff] using ih'

lemma nearestIdx_min (l : List ℚ) (x : ℚ) :
    ∀ i, i < l.length →
      |l.getD (nearestIdx l x) 0 - x| ≤ |l.getD i 0 - x| := by
  induction l with
  | nil => intro i hi; simp at hi
  | cons a tl ih =>
    cases tl with
    | nil =>
      intro i hi
      have hi0 : i = 0 := Nat.lt_one_iff.mp (by simpa using hi)
      subst hi0
      simp [nearestIdx]
    | cons b rest =>
      intro i hi
      rw [nearestIdx]
      by_cases hlt : |a - x| < |(b :: rest).getD (nearestIdx (b :: rest) x) 0 - x|
      · rw [if_pos hlt]
        cases i with
        | zero => simp
        | succ k =>
          have hk : k < (b :: rest).length := by simpa using hi
          have h1 : |(b :: rest).getD (nearestIdx (b :: rest) x) 0 - x| ≤
              |(b :: rest).getD k 0 - x| := ih k hk
          simpa using le_trans (le_of_lt hlt) h1
      · rw [if_neg hlt]
        push_neg at hlt
        cases i with
        | zero => simpa using hlt
        | succ k =>
          have hk : k < (b :: rest).length := by simpa using hi
          simpa using ih k hk

/-- Inner future(timestamp) of get_future_mid(books, offset, sensitivity):
  i = books.index.get_loc(timestamp+offset, method of nearest)
  if abs(books.index[i] - (timestamp+offset)) < sensitivity:
    return books.mid.iloc[i]
with an implicit None otherwise. A book row is a pair (timestamp, mid): the
first components are the index, the second the mid column. -/
def future (books : List (ℚ × ℚ)) (offset sens : ℚ) (t : ℚ) : Option ℚ :=
  let idx := books.map Prod.fst
  let i := nearestIdx idx (t + offset)
  if |idx.getD i 0 - (t + offset)| < sens then
    some ((books.map Prod.snd).getD i 0)
  else none

/-- get_future_mid(books, offset, sensitivity) = books.index.map(future). -/
def get_future_mid (books : List (ℚ × ℚ)) (offset sens : ℚ) :
    List (Option ℚ) :=
  (books.map Prod.fst).map (future books offset sens)

lemma getD_map_fst (books : List (ℚ × ℚ)) (i : ℕ) (h : i < books.length) :
    (books.map Prod.fst).getD i 0 = (books.get ⟨i, h⟩).1 := by
  rw [List.getD_eq_get ((books.map Prod.fst)) 0 (by simpa using h)]
  simp [List.get_map]

lemma getD_map_snd (books : List (ℚ × ℚ)) (i : ℕ) (h : i < books.length) :
    (books.map Prod.snd).getD i 0 = (books.get ⟨i, h⟩).2 := by
  rw [List.getD_eq_get ((books.map Prod.snd)) 0 (by simpa using h)]
  simp [List.get_map]

/-- Claim C3: over a books table with sorted timestamp index, get_future_mid
sends the row at position k with timestamp t to the mid of a row whose
timestamp minimises the distance to t + offset, provided that minimum
distance is strictly below the sensitivity; otherwise the cell is a missing
value (not an exception). -/
theorem C3_future_mid_nearest (books : List (ℚ × ℚ)) (offset sens : ℚ)
    (k : ℕ) (r : ℚ × ℚ) (hk : books[k]? = some r)
    (hsorted : books.Pairwise (fun p q => p.1 ≤ q.1)) :
    ∃ i : Fin books.length,
      (∀ j : Fin books.length,
        |(books.get i).1 - (r.1 + offset)| ≤ |(books.get j).1 - (r.1 + offset)|) ∧
      (|(books.get i).1 - (r.1 + offset)| < sens →
        (get_future_mid books offset sens)[k]? = some (some (books.get i).2)) ∧
      (sens ≤ |(books.get i).1 - (r.1 + offset)| →
        (get_future_mid books offset sens)[k]? = some none) := by
  have hne : books ≠ [] := by
    intro h
    subst h
    simp at hk
  have hlen : nearestIdx (books.map Prod.fst) (r.1 + offset) < books.length := by
    have := nearestIdx_lt_length (books.map Prod.fst) (r.1 + offset)
      (by simpa using hne)
    simpa using this
  refine ⟨⟨nearestIdx (books.map Prod.fst) (r.1 + offset), hlen⟩, ?_, ?_, ?_⟩
  · intro j
    have hmin := nearestIdx_min (books.map Prod.fst) (r.1 + offset) j.1
      (by simpa using j.2)
    rwa [getD_map_fst books _ hlen, getD_map_fst books _ j.2] at hmin
  · intro hhit
    simp only [get_future_mid, List.getElem?_map, hk, Option.map_some']
    rw [future]
    rw [getD_map_fst books _ hlen, if_pos hhit, getD_map_snd books _ hlen]
  · intro hmiss
    simp only [get_future_mid, List.getElem?_map, hk, Option.map_some']
    rw [future]
    rw [getD_map_fst books _ hlen, if_neg (not_lt.mpr hmiss)]

def B3 : List (ℚ × ℚ) := [(10, 100), (20, 101)]

/-- Witness for C3: two book rows; from t = 10 with offset 10 the nearest
row to 20 is the second one, at distance 0. -/
theorem C3_witness :
    ∃ i : Fin B3.length,
      (∀ j : Fin B3.length,
        |(B3.get i).1 - (((10 : ℚ), (100 : ℚ)).1 + 10)| ≤
          |(B3.get j).1 - (((10 : ℚ), (100 : ℚ)).1 + 10)|) ∧
      (|(B3.get i).1 - (((10 : ℚ), (100 : ℚ)).1 + 10)| < 1 →
        (get_future_mid B3 10 1)[0]? = some (some (B3.get i).2)) ∧
      (1 ≤ |(B3.get i).1 - (((10 : ℚ), (100 : ℚ)).1 + 10)| →
        (get_future_mid B3 10 1)[0]? = some none) :=
  C3_future_mid_nearest B3 10 1 0 (10, 100) (by norm_num [B3]) (by norm_num [B3])

/-- The label columns make_features attaches to one book row r = (t, mid):
for each n in mid_offsets the column mid-n stores future(t+n)/mid, a missing
value when the nearest lookup misses. The code then applies log pointwise,
which maps a present value to a present value and NaN to NaN, and the later
prev-n, imbalance, adjusted-price and trade columns are all total (prev-n
and the trade averages are fillna(0), the others are arithmetic), so which
rows dropna() removes is decided exactly by these forward-label cells. -/
def labelRow (books : List (ℚ × ℚ)) (mid_offsets : List ℚ) (r : ℚ × ℚ) :
    (ℚ × ℚ) × List (Option ℚ) :=
  (r, mid_offsets.map (fun n => (future books n 1 r.1).map (fun fm => fm / r.2)))

/-- The row set make_features produces: every book row is given its label
columns; in training mode (live = false) books.dropna() then removes the
rows with a missing cell, in live mode the drop is skipped. The final
column drop of bids and asks removes no rows. -/
def make_features_rows (books : List (ℚ × ℚ)) (mid_offsets : List ℚ)
    (live : Bool) : List ((ℚ × ℚ) × List (Option ℚ)) :=
  let labeled := books.map (labelRow books mid_offsets)
  if live then labeled
  else labeled.filter (fun lr => lr.2.all Option.isSome)

/-- Claim C7: in live mode every input snapshot yields an output row; in
training mode a row survives iff every forward label resolved, i.e. some
book row lies within the sensitivity of t + offset for each offset. -/
theorem C7_training_drops_unlabeled (books : List (ℚ × ℚ))
    (mid_offsets : List ℚ) (r : ℚ × ℚ) (hr : r ∈ books) :
    labelRow books mid_offsets r ∈ make_features_rows books mid_offsets true ∧
    (labelRow books mid_offsets r ∈ make_features_rows books mid_offsets false ↔
      ∀ n ∈ mid_offsets, (future books n 1 r.1).isSome = true) := by
  constructor
  · simp only [make_features_rows, if_pos]
    exact List.mem_map_of_mem _ hr
  · rw [make_features_rows]
    simp only [Bool.false_eq_true, if_false, List.mem_filter]
    constructor
    · intro h
      have hall := h.2
      simp only [labelRow, List.all_eq_true, List.mem_map] at hall
      intro n hn
      have := hall _ ⟨n, hn, rfl⟩
      simpa using this
    · intro h
      refine ⟨List.mem_map_of_mem _ hr, ?_⟩
      simp only [labelRow, List.all_eq_true, List.mem_map]
      rintro o ⟨n, hn, rfl⟩
      simpa using h n hn

def B7 : List (ℚ × ℚ) := [(0, 100), (10, 100)]

/-- Witness for C7: the row at t = 0 with mid_offsets = [10] has a valid
forward label (the row at t = 10), so it is kept in both modes. -/
theorem C7_witness :
    labelRow B7 [10] ((0 : ℚ), (100 : ℚ)) ∈ make_features_rows B7 [10] true ∧
    (labelRow B7 [10] ((0 : ℚ), (100 : ℚ)) ∈ make_features_rows B7 [10] false ↔
      ∀ n ∈ [(10 : ℚ)], (future B7 n 1 ((0 : ℚ), (100 : ℚ)).1).isSome = true) :=
  C7_training_drops_unlabeled B7 [10] (0, 100) (by norm_num [B7])

/-- One depth level of a book side: a row of the per-row bids/asks frames,
with columns price, amount and the recorded per-level timestamp. -/
structure Level where
  price : ℚ
  amount : ℚ
  timestamp : ℚ

/-- One row of the books table as the power functions see it: the raw bids
and asks level frames (priority-sorted, best first) plus the width and mid
columns that make_features attached beforehand with get_width_and_mid.
get_width_and_mid itself reads only bids and asks. -/
structure Book where
  bids : List Level
  asks : List Level
  width : ℚ
  mid : ℚ

/-- Inner calc(x) shared by get_power_imbalance (per level x):
  x.amount*(.5*book.width/(x.price-book.mid))**power -/
def calcLevel (b : Book) (power : ℕ) (x : Level) : ℚ :=
  x.amount * ((1 / 2) * b.width / (x.price - b.mid)) ^ power

/-- get_power_imbalance(books, n, power), per book row:
  bid_imbalance = book.bids.iloc[:n].apply(calc, axis=1)
  ask_imbalance = book.asks.iloc[:n].apply(calc, axis=1)
  return (bid_imbalance-ask_imbalance).sum()
The two Series carry RangeIndex 0..k-1 positions, so the pandas subtraction
aligns them positionally; a position present on only one side produces NaN
and .sum() skips NaN. The aligned part is therefore exactly the common
prefix, i.e. a zipWith of the two weighted columns. -/
def get_power_imbalance (b : Book) (n : ℕ) (power : ℕ) : ℚ :=
  (List.zipWith (fun u v => u - v)
    ((b.bids.take n).map (calcLevel b power))
    ((b.asks.take n).map (calcLevel b power))).sum

def B6 : Book := ⟨[⟨10, 2, 0⟩], [⟨14, 5, 0⟩, ⟨16, 7, 0⟩], 2, 12⟩

/-- Counterexample for C6: a book with one bid level and two ask levels, no
level price equal to mid. The second ask level has no aligned bid partner,
so pandas drops it: the code returns 1/2 - 5/4 = -3/4, while the claimed
weighted-bid-sum minus weighted-ask-sum is 1/2 - (5/4 + 7/16) = -19/16. -/
theorem C6_counterexample :
    (∀ x ∈ B6.bids.take 2 ++ B6.asks.take 2, x.price ≠ B6.mid) ∧
    get_power_imbalance B6 2 2 = -(3 / 4) ∧
    ((B6.bids.take 2).map (calcLevel B6 2)).sum -
        ((B6.asks.take 2).map (calcLevel B6 2)).sum = -(19 / 16) ∧
    get_power_imbalance B6 2 2 ≠
      ((B6.bids.take 2).map (calcLevel B6 2)).sum -
        ((B6.asks.take 2).map (calcLevel B6 2)).sum := by
  refine ⟨?_, ?_, ?_, ?_⟩
  · intro x hx
    fin_cases hx <;> norm_num [B6]
  · norm_num [get_power_imbalance, calcLevel, B6]
  · norm_num [calcLevel, B6]
  · norm_num [get_power_imbalance, calcLevel, B6]

lemma sum_zipWith_sub (l1 l2 : List ℚ) (h : l1.length = l2.length) :
    (List.zipWith (fun u v => u - v) l1 l2).sum = l1.sum - l2.sum := by
  induction l1 generalizing l2 with
  | nil =>
    cases l2 with
    | nil => simp
    | cons b t2 => simp at h
  | cons a t ih =>
    cases l2 with
    | nil => simp at h
    | cons b t2 =>
      have := ih t2 (by simpa using h)
      simp only [List.zipWith_cons_cons, List.sum_cons, this]
      ring

/-- Amended claim C6: when no top-n level price equals the mid and both
sides expose the same number of top-n levels, get_power_imbalance is the
weighted bid volume sum minus the weighted ask volume sum, the weight of a
level of amount a and price p being a*(0.5*width/(p - mid))^power. With
unequal top-n depths the unmatched tail is dropped by the pandas positional
alignment instead of being subtracted. -/
theorem C6_power_imbalance_aligned (b : Book) (n power : ℕ)
    (hguard : ∀ x ∈ b.bids.take n ++ b.asks.take n, x.price ≠ b.mid)
    (hlen : (b.bids.take n).length = (b.asks.take n).length) :
    get_power_imbalance b n power =
      ((b.bids.take n).map (calcLevel b power)).sum -
        ((b.asks.take n).map (calcLevel b power)).sum := by
  unfold get_power_imbalance
  exact sum_zipWith_sub _ _ (by simpa using hlen)

def B6w : Book := ⟨[⟨10, 2, 0⟩, ⟨9, 3, 0⟩], [⟨14, 5, 0⟩, ⟨16, 7, 0⟩], 2, 12⟩

/-- Witness for the amended C6: both sides expose two top-2 levels. -/
theorem C6_witness :
    get_power_imbalance B6w 2 2 =
      ((B6w.bids.take 2).map (calcLevel B6w 2)).sum -
        ((B6w.asks.take 2).map (calcLevel B6w 2)).sum :=
  C6_power_imbalance_aligned B6w 2 2
    (by intro x hx; fin_cases hx <;> norm_num [B6w]) (by norm_num [B6w])

/-- get_width_and_mid(books), per book row:
  best_bid = books.bids.apply(lambda x: x.price[0])
  best_ask = books.asks.apply(lambda x: x.price[0])
  return best_ask-best_bid, (best_bid + best_ask)/2
x.price[0] is the first (priority-best) level of the side. -/
def get_width_and_mid (b : Book) : ℚ × ℚ :=
  ((b.asks.headD ⟨0, 0, 0⟩).price - (b.bids.headD ⟨0, 0, 0⟩).price,
    ((b.bids.headD ⟨0, 0, 0⟩).price + (b.asks.headD ⟨0, 0, 0⟩).price) / 2)

/-- Claim C8: for every book whose best ask is at least its best bid (best
being the first entry of each priority-sorted side), width is their
difference and is nonnegative, and mid is their average and lies between
them. -/
theorem C8_width_mid (b : Book) (hb : b.bids ≠ []) (ha : b.asks ≠ [])
    (hcross : (b.bids.headD ⟨0, 0, 0⟩).price ≤ (b.asks.headD ⟨0, 0, 0⟩).price) :
    (get_width_and_mid b).1 =
        (b.asks.headD ⟨0, 0, 0⟩).price - (b.bids.headD ⟨0, 0, 0⟩).price ∧
    0 ≤ (get_width_and_mid b).1 ∧
    (get_width_and_mid b).2 =
        ((b.bids.headD ⟨0, 0, 0⟩).price + (b.asks.headD ⟨0, 0, 0⟩).price) / 2 ∧
    (b.bids.headD ⟨0, 0, 0⟩).price ≤ (get_width_and_mid b).2 ∧
    (get_width_and_mid b).2 ≤ (b.asks.headD ⟨0, 0, 0⟩).price := by
  unfold get_width_and_mid
  dsimp only
  refine ⟨rfl, ?_, rfl, ?_, ?_⟩ <;> linarith

def B8 : Book := ⟨[⟨10, 1, 0⟩], [⟨12, 1, 0⟩], 0, 0⟩

/-- Witness for C8: best bid 10, best ask 12. -/
theorem C8_witness :
    (get_width_and_mid B8).1 =
        (B8.asks.headD ⟨0, 0, 0⟩).price - (B8.bids.headD ⟨0, 0, 0⟩).price ∧
    0 ≤ (get_width_and_mid B8).1 ∧
    (get_width_and_mid B8).2 =
        ((B8.bids.headD ⟨0, 0, 0⟩).price + (B8.asks.headD ⟨0, 0, 0⟩).price) / 2 ∧
    (B8.bids.headD ⟨0, 0, 0⟩).price ≤ (get_width_and_mid B8).2 ∧
    (get_width_and_mid B8).2 ≤ (B8.asks.headD ⟨0, 0, 0⟩).price :=
  C8_width_mid B8 (by simp [B8]) (by simp [B8]) (by norm_num [B8])

/-- get_trade_df(symbol, min_ts, max_ts) fetches the trades with
  query = timestamp: gt min_ts, lt max_ts
(both bounds strict), sorted ascending by the id key. The stored table is
modelled as the given list; the fetch is the filter. -/
def get_trade_df (trades : List Trade) (min_ts max_ts : ℚ) : List Trade :=
  trades.filter (fun r => min_ts < r.timestamp ∧ r.timestamp < max_ts)

/-- The trade fetch stage of make_features:
  min_ts = books.index[0] - trades_offsets[-1]
  max_ts = books.index[-1]
  trades = get_trade_df(symbol, min_ts, max_ts)
books.index[0] is the first row of the fetched book table (the newest
timestamp under the descending live sort), books.index[-1] the last. -/
def make_features_trade_fetch (booksIdx : List ℚ) (trades_offsets : List ℚ)
    (trades : List Trade) : List Trade :=
  get_trade_df trades (booksIdx.headD 0 - trades_offsets.getLastD 0)
    (booksIdx.getLastD 0)

def Tc2 : List Trade := [⟨1, 150, 5, 1, "buy"⟩]

/-- Claim C2 (code-bug evaluation): a live-mode run fetches the book table
descending, e.g. index [200, 100]; with trades_offsets [10, 30] the code
takes min_ts = 200 - 30 = 170 and max_ts = 100 and queries
170 < timestamp < 100, fetching nothing, although the trade at 150 lies in
the claimed span [100 - 30, 200]. -/
theorem C2_live_fetch_empty :
    make_features_trade_fetch [200, 100] [10, 30] Tc2 = [] ∧
    Tc2.filter (fun r => 100 - 30 ≤ r.timestamp ∧ r.timestamp ≤ 200) = Tc2 := by
  constructor
  · norm_num [make_features_trade_fetch, get_trade_df, Tc2, List.filter_cons]
  · norm_num [Tc2, List.filter_cons]
